import Mathlib

/-!
Verification development for the autozotero metadata pipeline.

The Python sources are shallowly embedded:
* JSON values (the output of json.loads) are modelled by `JValue`; Python
  dicts are association lists with first-match lookup (`JObj`, `jget`).
* `src/src/metadata.py` : `extract_json_from_text`, `validate_output_format`
  (split into its three sequential blocks), `extract_metadata` (with the
  generation backend and the stdlib JSON parser passed in as behaviours),
  and `calculate_cost` (Decimal arithmetic modelled by `Rat`).
* `src/src/file_utils.py` : `extract_metadata_from_filename`.
* `src/src/updater.py` : `format_metadata_for_zotero`, the filename-metadata
  merge step, and `process_pdf` against a small model of the catalog.
* `src/src/zotero_utils.py` : `RateLimitHandler` and the retry wrapper
  `handle_request`, with time passing made explicit.
-/

/-- JSON values, as produced by json.loads. Objects keep insertion order. -/
inductive JValue where
  | null : JValue
  | bool (b : Bool) : JValue
  | num (n : Int) : JValue
  | str (s : String) : JValue
  | arr (xs : List JValue) : JValue
  | obj (fields : List (String × JValue)) : JValue

/-- A Python dict holding JSON values: association list, first match wins. -/
abbrev JObj := List (String × JValue)

/-- Dict lookup (`d.get(k)` / `k in d`): first pair with the given key. -/
def jget : JObj → String → Option JValue
  | [], _ => none
  | (k, v) :: rest, key => if k = key then some v else jget rest key

/-- Whether a JSON value is a Python dict (`isinstance(x, dict)`). -/
def JValue.isObj : JValue → Bool
  | .obj _ => true
  | _ => false

/-- Python truthiness of a JSON value. -/
def JValue.truthy : JValue → Bool
  | .null => false
  | .bool b => b
  | .num n => n != 0
  | .str s => !s.isEmpty
  | .arr xs => !xs.isEmpty
  | .obj fs => !fs.isEmpty

/-- Truthiness of `d.get(k)` (missing key gives None, which is falsy). -/
def jtruthy (o : Option JValue) : Bool :=
  match o with
  | some v => v.truthy
  | none => false

/-- Python `d.update(u)`: existing keys are overwritten in place, new keys
of `u` are appended in order. -/
def dictUpdate (d u : JObj) : JObj :=
  d.map (fun kv => match jget u kv.1 with
    | some v => (kv.1, v)
    | none => kv)
  ++ u.filter (fun kv => (jget d kv.1).isNone)

theorem jget_append (a b : JObj) (k : String) :
    jget (a ++ b) k = (jget a k).orElse (fun _ => jget b k) := by
  induction a with
  | nil => simp [jget]
  | cons kv rest ih =>
      by_cases h : kv.1 = k
      · simp [jget, h, Option.orElse]
      · simpa [jget, h] using ih

theorem jget_filter_of_none (u : JObj) (p : String × JValue → Bool) (k : String)
    (h : jget u k = none) : jget (u.filter p) k = none := by
  induction u with
  | nil => simp [jget]
  | cons kv rest ih =>
      by_cases hk : kv.1 = k
      · simp [jget, hk] at h
      · simp [jget, hk] at h
        by_cases hp : p kv
        · simp [List.filter_cons, hp, jget, hk, ih h]
        · simp [List.filter_cons, hp, ih h]

/-- A key that `u` does not bind is unaffected by `d.update(u)`. -/
theorem jget_dictUpdate_of_none (d u : JObj) (k : String)
    (h : jget u k = none) : jget (dictUpdate d u) k = jget d k := by
  unfold dictUpdate
  rw [jget_append]
  rw [jget_filter_of_none u _ k h]
  induction d with
  | nil => simp [jget]
  | cons kv rest ih =>
      by_cases hk : kv.1 = k
      · subst hk
        simp [jget, h, Option.orElse]
      · simp only [List.map_cons]
        cases hu : jget u kv.1 <;>
          simpa [jget, hk, hu] using ih

theorem jget_map_upd_none (d u : JObj) (k : String) (hd : jget d k = none) :
    jget (d.map (fun kv => match jget u kv.1 with
      | some v => (kv.1, v)
      | none => kv)) k = none := by
  induction d with
  | nil => simp [jget]
  | cons kv rest ih =>
      by_cases hk : kv.1 = k
      · simp [jget, hk] at hd
      · simp [jget, hk] at hd
        cases hu : jget u kv.1 <;> simpa [jget, hk, hu] using ih hd

theorem jget_map_upd_some (d u : JObj) (k : String) (v w : JValue)
    (hu : jget u k = some v) (hd : jget d k = some w) :
    jget (d.map (fun kv => match jget u kv.1 with
      | some x => (kv.1, x)
      | none => kv)) k = some v := by
  induction d with
  | nil => simp [jget] at hd
  | cons kv rest ih =>
      by_cases hk : kv.1 = k
      · subst hk
        simp [jget, hu]
      · simp [jget, hk] at hd
        cases hx : jget u kv.1 <;> simpa [jget, hk, hx] using ih hd

theorem jget_filter_upd (u d : JObj) (k : String) (v : JValue)
    (hu : jget u k = some v) (hd : jget d k = none) :
    jget (u.filter (fun kv => (jget d kv.1).isNone)) k = some v := by
  induction u with
  | nil => simp [jget] at hu
  | cons kv rest ih =>
      by_cases hk : kv.1 = k
      · subst hk
        simp [jget] at hu
        simp [List.filter_cons, hd, jget, hu]
      · simp [jget, hk] at hu
        by_cases hp : ((jget d kv.1).isNone : Bool)
        · simp [List.filter_cons, hp, jget, hk, ih hu]
        · simp [List.filter_cons, hp, ih hu]

/-- A key that `u` binds takes the value of `u` after `d.update(u)`. -/
theorem jget_dictUpdate_of_some (d u : JObj) (k : String) (v : JValue)
    (h : jget u k = some v) : jget (dictUpdate d u) k = some v := by
  unfold dictUpdate
  rw [jget_append]
  cases hd : jget d k with
  | some w => simp [jget_map_upd_some d u k v w h hd, Option.orElse]
  | none => simp [jget_map_upd_none d u k hd, jget_filter_upd u d k v h hd, Option.orElse]

/-! ## metadata.py : _extract_json_from_text -/

/-- Python `text.find(c)`: index of the first occurrence, if any. -/
def py_find (cs : List Char) (c : Char) : Option Nat :=
  match cs with
  | [] => none
  | x :: xs =>
      if x = c then some 0
      else (py_find xs c).map (· + 1)

/-- Python `text.rfind(c)`: index of the last occurrence, if any. -/
def py_rfind (cs : List Char) (c : Char) : Option Nat :=
  match cs with
  | [] => none
  | x :: xs =>
      match py_rfind xs c with
      | some i => some (i + 1)
      | none => if x = c then some 0 else none

/-- `MetadataExtractor._extract_json_from_text`: take the slice of the raw
response from the first opening brace to the last closing brace inclusive;
raise ValueError when either brace is absent. -/
def extract_json_from_text (text : String) : Except String String :=
  match py_find text.toList '{', py_rfind text.toList '}' with
  | some start, some stop => .ok (String.mk ((text.toList.drop start).take (stop + 1 - start)))
  | _, _ => .error "Aucun objet JSON trouve dans la reponse"

theorem py_find_eq_none (cs : List Char) (c : Char) :
    py_find cs c = none ↔ c ∉ cs := by
  induction cs with
  | nil => simp [py_find]
  | cons x xs ih =>
      by_cases hx : x = c
      · simp [py_find, hx]
      · constructor
        · intro h
          simp [py_find, hx] at h
          simp [List.mem_cons, ih.mp h]
          exact fun he => hx he.symm
        · intro h
          simp [List.mem_cons] at h
          simp [py_find, hx, ih.mpr h.2]

theorem py_find_first (cs : List Char) (c : Char) (i : Nat)
    (h : py_find cs c = some i) :
    cs.get? i = some c ∧ ∀ j, j < i → cs.get? j ≠ some c := by
  induction cs generalizing i with
  | nil => simp [py_find] at h
  | cons x xs ih =>
      by_cases hx : x = c
      · simp [py_find, hx] at h
        subst h
        subst hx
        exact ⟨rfl, by omega⟩
      · simp [py_find, hx] at h
        obtain ⟨i', hi', rfl⟩ := h
        obtain ⟨h1, h2⟩ := ih i' hi'
        refine ⟨h1, ?_⟩
        intro j hj
        cases j with
        | zero => simpa [List.get?] using fun he => hx he
        | succ j' =>
            simpa [List.get?] using h2 j' (by omega)

theorem py_rfind_eq_none (cs : List Char) (c : Char) :
    py_rfind cs c = none ↔ c ∉ cs := by
  induction cs with
  | nil => simp [py_rfind]
  | cons x xs ih =>
      cases hr : py_rfind xs c with
      | some i' =>
          simp only [py_rfind, hr]
          simp [List.mem_cons]
          intro _
          by_contra hm
          exact absurd hr (by simp [ih.mpr hm])
      | none =>
          by_cases hx : x = c
          · simp [py_rfind, hr, hx]
          · simp [py_rfind, hr, hx, List.mem_cons, ih.mp hr]
            exact fun he => hx he.symm

theorem py_rfind_last (cs : List Char) (c : Char) (i : Nat)
    (h : py_rfind cs c = some i) :
    cs.get? i = some c ∧ ∀ j, i < j → cs.get? j ≠ some c := by
  induction cs generalizing i with
  | nil => simp [py_rfind] at h
  | cons x xs ih =>
      cases hr : py_rfind xs c with
      | some i' =>
          simp [py_rfind, hr] at h
          subst h
          obtain ⟨h1, h2⟩ := ih i' hr
          refine ⟨h1, ?_⟩
          intro j hj
          cases j with
          | zero => omega
          | succ j' => simpa [List.get?] using h2 j' (by omega)
      | none =>
          by_cases hx : x = c
          · simp [py_rfind, hr, hx] at h
            subst h
            subst hx
            refine ⟨rfl, ?_⟩
            intro j hj
            cases j with
            | zero => omega
            | succ j' =>
                intro hc
                exact (py_rfind_eq_none xs x).mp hr (List.get?_mem hc)
          · simp [py_rfind, hr, hx] at h

/-! ## metadata.py : _validate_output_format -/

/-- Authors block of `_validate_output_format`: each entry must be a dict;
nothing else about an entry is checked. -/
def validate_authors_list : List JValue → Except String Unit
  | [] => .ok ()
  | a :: rest =>
      if a.isObj then validate_authors_list rest
      else .error "Chaque auteur doit etre un dictionnaire"

/-- The `authors` check of `_validate_output_format`. -/
def validate_authors (data : JObj) : Except String Unit :=
  match jget data "authors" with
  | none => .ok ()
  | some (.arr authors) => validate_authors_list authors
  | some _ => .error "Le champ authors doit etre une liste"

/-- Ten characters shaped DD/MM/YYYY, all digits around the slashes. -/
def isDDMMYYYY : List Char → Bool
  | [a, b, s1, c, d, s2, e, f, g, h] =>
      a.isDigit && b.isDigit && s1 == '/' && c.isDigit && d.isDigit && s2 == '/' &&
      e.isDigit && f.isDigit && g.isDigit && h.isDigit
  | _ => false

/-- Semantics of Python re.match with a pattern anchored by a dollar sign:
the dollar also matches just before one trailing newline. -/
def date_regex_match (s : String) : Bool :=
  isDDMMYYYY s.toList ||
    (s.toList.getLast? == some '\n' && isDDMMYYYY s.toList.dropLast)

/-- The `date` check of `_validate_output_format`. A present non-null date
must be a DD/MM/YYYY string; re.match on a non-string raises TypeError. -/
def validate_date (data : JObj) : Except String Unit :=
  match jget data "date" with
  | none => .ok ()
  | some .null => .ok ()
  | some (.str s) =>
      if date_regex_match s then .ok ()
      else .error ("Format de date invalide (doit etre DD/MM/YYYY): " ++ s)
  | some _ => .error "TypeError: expected string or bytes-like object"

/-- `s.startswith("./")`. -/
def startsDotSlash (s : String) : Bool :=
  match s.toList with
  | '.' :: '/' :: _ => true
  | _ => false

/-- Tags block of `_validate_output_format`: each entry must be a dict with
a string field `tag` that starts with `./` and is longer than 2 characters. -/
def validate_tags_list : List JValue → Except String Unit
  | [] => .ok ()
  | t :: rest =>
      match t with
      | .obj o =>
          match jget o "tag" with
          | none => .error "Format de tag invalide : champ tag manquant"
          | some (.str s) =>
              if !startsDotSlash s then
                .error ("Les tags doivent commencer par ./ recu: " ++ s)
              else if s.length ≤ 2 then
                .error ("Tag invalide : trop court - " ++ s)
              else validate_tags_list rest
          | some _ => .error "Le tag doit etre une chaine de caracteres"
      | _ => .error "Chaque tag doit etre un dictionnaire"

/-- The `tags` check of `_validate_output_format`. -/
def validate_tags (data : JObj) : Except String Unit :=
  match jget data "tags" with
  | none => .ok ()
  | some (.arr tags) => validate_tags_list tags
  | some _ => .error "Le champ tags doit etre une liste"

/-- `MetadataExtractor._validate_output_format`: the three checks in source
order; the first failure is raised. -/
def validate_output_format (data : JObj) : Except String Unit :=
  match validate_authors data with
  | .error e => .error e
  | .ok () =>
      match validate_date data with
      | .error e => .error e
      | .ok () => validate_tags data

/-! ## metadata.py : extract_metadata and the usage accumulator -/

/-- A Python exception reaching the caller of `extract_metadata`. The tag of
`backendError` identifies the exception object raised inside `generate`. -/
inductive PyErr where
  | backendError (tag : Nat) (msg : String)
  | valueError (msg : String)
  | unboundLocalError (name : String)
deriving DecidableEq, Repr

/-- The uniform response shape of every `LLMProvider.generate`. -/
structure Usage where
  input_tokens : Nat
  output_tokens : Nat
deriving DecidableEq, Repr

structure GenResult where
  content : String
  usage : Usage
deriving DecidableEq, Repr

/-- The extractor instance state `total_input_tokens` / `total_output_tokens`. -/
structure Counters where
  total_input_tokens : Nat
  total_output_tokens : Nat
deriving DecidableEq, Repr

/-- Python `s.replace(pat, rep)`: leftmost non-overlapping occurrences,
written with explicit fuel (the string length bounds the recursion). -/
def py_replace_list (pat rep : List Char) : Nat → List Char → List Char
  | 0, cs => cs
  | _ + 1, [] => []
  | fuel + 1, c :: rest =>
      if pat.isPrefixOf (c :: rest) then
        rep ++ py_replace_list pat rep fuel ((c :: rest).drop pat.length)
      else
        c :: py_replace_list pat rep fuel rest

def py_replace (s pat rep : String) : String :=
  String.mk (py_replace_list pat.toList rep.toList s.toList.length s.toList)

/-- `MetadataExtractor.extract_metadata`. The generation backend is passed
in as the behaviour of its successive calls (`llm n` is what the n-th call
to `self.llm.generate` does), and the stdlib json.loads as `parse`. The
result carries the metadata or the raised exception, the new token
counters, and how many generate calls were performed.

When `generate` itself raises, the source enters `except Exception` and
evaluates `result['content'] if 'content' in result else ...` while the
local `result` was never assigned, so the handler raises
UnboundLocalError("result") instead of re-raising or wrapping the backend
error. On any later failure `result` is bound and the handler wraps the
error in `ValueError("Erreur lors de ...")`. Token counters are updated
right after a successful generate call, before any parsing. -/
def extract_metadata (llm : Nat → Except PyErr GenResult)
    (parse : String → Except String JObj) (st : Counters) :
    Except PyErr JObj × Counters × Nat :=
  match llm 0 with
  | .error _ =>
      (.error (.unboundLocalError "result"), st, 1)
  | .ok result =>
      let st1 : Counters := ⟨st.total_input_tokens + result.usage.input_tokens,
                             st.total_output_tokens + result.usage.output_tokens⟩
      match extract_json_from_text result.content with
      | .error msg =>
          (.error (.valueError ("Erreur lors de l extraction des metadonnees: " ++ msg)), st1, 1)
      | .ok json_str =>
          let json_str2 := py_replace (py_replace json_str ": None" ": null") ":None" ":null"
          match parse json_str2 with
          | .error e =>
              (.error (.valueError ("Erreur lors de l extraction des metadonnees: JSON invalide : " ++ e)), st1, 1)
          | .ok metadata =>
              match validate_output_format metadata with
              | .error e =>
                  (.error (.valueError ("Erreur lors de l extraction des metadonnees: " ++ e)), st1, 1)
              | .ok () => (.ok metadata, st1, 1)

/-- Per-provider price table (currency units per million tokens). Python
Decimal arithmetic is modelled by exact rationals. -/
structure ModelCosts where
  input_tokens : Rat
  output_tokens : Rat
deriving DecidableEq, Repr

structure CostReport where
  input_tokens : Nat
  output_tokens : Nat
  input_cost : Rat
  output_cost : Rat
  total_cost : Rat
deriving DecidableEq, Repr

/-- `MetadataExtractor.calculate_cost`. -/
def calculate_cost (st : Counters) (costs : ModelCosts) : CostReport :=
  let input_cost := ((st.total_input_tokens : Rat) / 1000000) * costs.input_tokens
  let output_cost := ((st.total_output_tokens : Rat) / 1000000) * costs.output_tokens
  { input_tokens := st.total_input_tokens
    output_tokens := st.total_output_tokens
    input_cost := input_cost
    output_cost := output_cost
    total_cost := input_cost + output_cost }

/-- One extraction call: the backend behaviour and the parser behaviour it
will meet. -/
abbrev ExtractionCall := (Nat → Except PyErr GenResult) × (String → Except String JObj)

/-- A batch of `extract_metadata` calls threaded through the instance
counters, as the orchestrator performs them. -/
def run_extractions (calls : List ExtractionCall) (st : Counters) : Counters :=
  calls.foldl (fun s c => (extract_metadata c.1 c.2 s).2.1) st

/-- The usage a call contributes to the counters: what the backend reported
on success, nothing when generate raised. -/
def call_usage (c : ExtractionCall) : Usage :=
  match c.1 0 with
  | .ok r => r.usage
  | .error _ => ⟨0, 0⟩

theorem extract_metadata_counters (llm : Nat → Except PyErr GenResult)
    (parse : String → Except String JObj) (st : Counters) :
    (extract_metadata llm parse st).2.1 =
      ⟨st.total_input_tokens + (call_usage (llm, parse)).input_tokens,
       st.total_output_tokens + (call_usage (llm, parse)).output_tokens⟩ := by
  unfold extract_metadata
  cases h : llm 0 with
  | error e => simp [call_usage, h]
  | ok r =>
      have hu : call_usage (llm, parse) = r.usage := by simp [call_usage, h]
      simp only
      cases h2 : extract_json_from_text r.content with
      | error msg => simp [hu]
      | ok js =>
          simp only
          cases h3 : parse (py_replace (py_replace js ": None" ": null") ":None" ":null") with
          | error e => simp [hu]
          | ok md =>
              simp only
              cases h4 : validate_output_format md with
              | error e => simp [hu]
              | ok u => cases u; simp [hu]

theorem run_extractions_closed (calls : List ExtractionCall) (st : Counters) :
    run_extractions calls st =
      ⟨st.total_input_tokens + (calls.map (fun c => (call_usage c).input_tokens)).sum,
       st.total_output_tokens + (calls.map (fun c => (call_usage c).output_tokens)).sum⟩ := by
  induction calls generalizing st with
  | nil => simp [run_extractions]
  | cons c rest ih =>
      show run_extractions rest ((extract_metadata c.1 c.2 st).2.1) = _
      rw [ih, extract_metadata_counters]
      simp [List.map_cons, List.sum_cons]
      constructor <;> omega

/-! ## file_utils.py : extract_metadata_from_filename -/

/-- The twelve digit characters captured by the CamScanner filename
pattern `CamScanner DD-MM-YYYY HH.MM_hnOCR.pdf`. -/
structure CamScanMatch where
  d1 : Char
  d2 : Char
  mo1 : Char
  mo2 : Char
  y1 : Char
  y2 : Char
  y3 : Char
  y4 : Char
  h1 : Char
  h2 : Char
  n1 : Char
  n2 : Char

/-- re.match of `CamScanner (dd-dd-dddd) (dd.dd)_hnOCR\.pdf` against the
start of the filename (re.match anchors at the start only, so trailing
characters after `.pdf` are tolerated). -/
def camscanner_match (cs : List Char) : Option CamScanMatch :=
  match cs with
  | 'C' :: 'a' :: 'm' :: 'S' :: 'c' :: 'a' :: 'n' :: 'n' :: 'e' :: 'r' :: ' ' ::
      d1 :: d2 :: '-' :: mo1 :: mo2 :: '-' :: y1 :: y2 :: y3 :: y4 :: ' ' ::
      h1 :: h2 :: '.' :: n1 :: n2 :: '_' ::
      'h' :: 'n' :: 'O' :: 'C' :: 'R' :: '.' :: 'p' :: 'd' :: 'f' :: _ =>
      if d1.isDigit && d2.isDigit && mo1.isDigit && mo2.isDigit &&
         y1.isDigit && y2.isDigit && y3.isDigit && y4.isDigit &&
         h1.isDigit && h2.isDigit && n1.isDigit && n2.isDigit then
        some ⟨d1, d2, mo1, mo2, y1, y2, y3, y4, h1, h2, n1, n2⟩
      else none
  | _ => none

def digitVal (c : Char) : Nat := c.toNat - 48

/-- Gregorian leap year, as datetime implements it. -/
def isLeapYear (y : Nat) : Bool := y % 4 == 0 && (y % 100 != 0 || y % 400 == 0)

def daysInMonth (m y : Nat) : Nat :=
  if m = 2 then (if isLeapYear y then 29 else 28)
  else if m = 4 ∨ m = 6 ∨ m = 9 ∨ m = 11 then 30
  else 31

/-- Validity check performed by `datetime.strptime(date_str, "%d-%m-%Y")`:
a real calendar date with year between 1 and 9999. -/
def strptime_valid (d m y : Nat) : Bool :=
  decide (1 ≤ y ∧ y ≤ 9999 ∧ 1 ≤ m ∧ m ≤ 12 ∧ 1 ≤ d ∧ d ≤ daysInMonth m y)

/-- `file_utils.extract_metadata_from_filename`: a recognized CamScanner
filename yields the dict with the ISO 8601 access date under `accessDate`
and the scan time (dot replaced by colon) under `extra`; an unparseable
date makes it return None, as does a non-matching filename. -/
def extract_metadata_from_filename (filename : String) : Option JObj :=
  match camscanner_match filename.toList with
  | none => none
  | some m =>
      let dd := digitVal m.d1 * 10 + digitVal m.d2
      let mm := digitVal m.mo1 * 10 + digitVal m.mo2
      let yyyy := digitVal m.y1 * 1000 + digitVal m.y2 * 100 + digitVal m.y3 * 10 + digitVal m.y4
      if strptime_valid dd mm yyyy then
        some [("accessDate", .str (String.mk [m.y1, m.y2, m.y3, m.y4, '-', m.mo1, m.mo2, '-', m.d1, m.d2])),
              ("extra", .str (String.mk [m.h1, m.h2, ':', m.n1, m.n2]))]
      else none

/-! ## updater.py : the filename-metadata merge and the Zotero formatting -/

/-- `ZoteroMetadataUpdater.process_pdf` lines 137-140: if the filename
yields metadata, merge it with `metadata.update(filename_metadata)`. -/
def add_filename_metadata (metadata : JObj) (basename : String) : JObj :=
  match extract_metadata_from_filename basename with
  | some fm => dictUpdate metadata fm
  | none => metadata

/-- The author branch of `_format_metadata_for_zotero`: one creator dict
per author entry, never failing on a dict entry. Truthiness (Python `if
author.get(...)`) decides which shape is used. -/
def format_creator (author : JObj) : JObj :=
  if jtruthy (jget author "lastName") then
    if jtruthy (jget author "firstName") then
      [("creatorType", .str "author"),
       ("lastName", (jget author "lastName").getD .null),
       ("firstName", (jget author "firstName").getD .null)]
    else
      [("creatorType", .str "author"), ("name", (jget author "lastName").getD .null)]
  else if jtruthy (jget author "denomination") then
    [("creatorType", .str "author"), ("name", (jget author "denomination").getD .null)]
  else
    [("creatorType", .str "author"), ("name", .str "Unknown Author")]

/-- Python `str()` of a JSON value; container rendering is abstracted (it
is only used for the `scanTime` field, which no claim constrains). -/
def pyStr : JValue → String
  | .null => "None"
  | .bool b => if b then "True" else "False"
  | .num n => toString n
  | .str s => s
  | .arr _ => "[...]"
  | .obj _ => "<dict>"

def simple_fields : List String :=
  ["title", "reportNumber", "institution", "place", "date", "language", "accessDate"]

/-- Iterating `for author in metadata['authors']`: every entry must be a
dict, otherwise `author.get` raises AttributeError. -/
def format_creators_list : List JValue → Except String (List JObj)
  | [] => .ok []
  | .obj o :: rest => (format_creators_list rest).map (fun cs => format_creator o :: cs)
  | _ :: _ => .error "AttributeError: author entry is not a dict"

/-- `ZoteroMetadataUpdater._format_metadata_for_zotero`: copy the simple
fields that are present, turn `scanTime` into an `extra` note, map authors
to creators, and copy `tags` verbatim; insertion order as in the source. -/
def format_metadata_for_zotero (metadata : JObj) : Except String JObj :=
  let simples := simple_fields.filterMap (fun f => (jget metadata f).map (fun v => (f, v)))
  let withExtra := simples ++ (match jget metadata "scanTime" with
    | some v => [("extra", JValue.str ("Scan time: " ++ pyStr v))]
    | none => [])
  let tagsPart : JObj := match jget metadata "tags" with
    | some v => [("tags", v)]
    | none => []
  match jget metadata "authors" with
  | none => .ok (withExtra ++ tagsPart)
  | some (.arr authors) =>
      match format_creators_list authors with
      | .error e => .error e
      | .ok creators =>
          .ok (withExtra ++ [("creators", .arr (creators.map JValue.obj))] ++ tagsPart)
  | some _ => .error "TypeError: authors value is not iterable over dicts"

/-! ## updater.py : process_pdf against a model of the catalog

The external Zotero service is modelled minimally: an item created through
`create_items` stores exactly the data fields of the template it was given.
In particular an attachment created without a binary upload carries no
`md5` (the server computes the hash from an uploaded file, and
`process_pdf` never uploads one). -/

structure ZItem where
  key : String
  data : JObj

structure Catalog where
  items : List ZItem
  nextKey : Nat

def freshKey (n : Nat) : String := "K" ++ toString n

/-- The `itemType='attachment'` filter of `self.zot.items(...)`. -/
def isAttachmentItem (it : ZItem) : Bool :=
  match jget it.data "itemType" with
  | some (.str s) => s == "attachment"
  | _ => false

/-- `item.get('data', dict()).get('md5', '')`. -/
def md5OrEmpty (d : JObj) : String :=
  match jget d "md5" with
  | some (.str s) => s
  | _ => ""

/-- The rejection test of the duplicate loop: stored md5 equals the file
hash and the attachment has a truthy parentItem. -/
def dup_check (file_hash : String) (it : ZItem) : Bool :=
  md5OrEmpty it.data == file_hash && jtruthy (jget it.data "parentItem")

def parent_of (it : ZItem) : String :=
  match jget it.data "parentItem" with
  | some (.str p) => p
  | _ => ""

/-- `ZoteroMetadataUpdater.process_pdf`. Inputs: the current catalog, the
MD5 of the file bytes (`calculate_file_hash`), the basename of the path,
the collection keys, and the outcome of the text-plus-LLM stage
(`self.metadata.extract_metadata(text)`), passed as a behaviour. Returns
the raised exception or the updated parent item, together with the new
catalog state (partial writes persist on failure, as in the source). -/
def process_pdf (cat : Catalog) (file_hash : String) (basename : String)
    (collections : List String) (metadataResult : Except PyErr JObj) :
    Except PyErr ZItem × Catalog :=
  match (cat.items.filter isAttachmentItem).find? (dup_check file_hash) with
  | some it =>
      (.error (.valueError ("Ce PDF existe deja dans Zotero (ID: " ++ parent_of it ++ ")")), cat)
  | none =>
      let parentKey := freshKey cat.nextKey
      let parent : ZItem := ⟨parentKey, [("itemType", .str "report")]⟩
      let cat1 : Catalog := ⟨cat.items ++ [parent], cat.nextKey + 1⟩
      let attData : JObj :=
        [("itemType", .str "attachment"),
         ("contentType", .str "application/pdf"),
         ("filename", .str basename),
         ("parentItem", .str parentKey)] ++
        (if collections.isEmpty then [] else [("collections", .arr (collections.map .str))])
      let attachment : ZItem := ⟨freshKey cat1.nextKey, attData⟩
      let cat2 : Catalog := ⟨cat1.items ++ [attachment], cat1.nextKey + 1⟩
      match metadataResult with
      | .error e => (.error e, cat2)
      | .ok md =>
          let md1 := add_filename_metadata md basename
          match format_metadata_for_zotero md1 with
          | .error msg => (.error (.valueError msg), cat2)
          | .ok formatted =>
              let parent2 : ZItem := ⟨parentKey, dictUpdate parent.data formatted⟩
              let cat3 : Catalog :=
                ⟨cat2.items.map (fun it => if it.key = parentKey then parent2 else it), cat2.nextKey⟩
              (.ok parent2, cat3)

/-! ## zotero_utils.py : RateLimitHandler and the retry wrapper

Wall-clock time is an explicit integer parameter; `time.sleep(w)` advances
it by `w`, and the catalog calls themselves are instantaneous. -/

/-- The two advisory headers the wrapper inspects. -/
structure ZHeaders where
  backoff : Option Nat
  retryAfter : Option Nat
deriving DecidableEq, Repr

structure ZResponse where
  status : Nat
  headers : ZHeaders
deriving DecidableEq, Repr

/-- An exception raised by a catalog call; `response` is present when the
exception has a `response` attribute. The tag identifies the object. -/
structure ZExn where
  tag : Nat
  response : Option ZResponse
deriving DecidableEq, Repr

/-- Behaviour of one catalog call: a value together with optional response
headers, or a raised exception. -/
inductive ZCallResult (α : Type) where
  | ok (v : α) (headers : Option ZHeaders)
  | exn (e : ZExn)

/-- `RateLimitHandler` state: `backoff_until` and `retry_after_until`. -/
structure RLState where
  backoff_until : Int
  retry_after_until : Int
deriving DecidableEq, Repr

/-- `RateLimitHandler.handle_response_headers` at time `now`. -/
def handle_response_headers (h : ZHeaders) (now : Int) (st : RLState) : RLState :=
  { backoff_until := match h.backoff with
      | some b => now + (b : Int)
      | none => st.backoff_until
    retry_after_until := match h.retryAfter with
      | some r => now + (r : Int)
      | none => st.retry_after_until }

/-- `RateLimitHandler.should_wait` at time `now`. -/
def should_wait (st : RLState) (now : Int) : Int :=
  max (st.backoff_until - now) (max (st.retry_after_until - now) 0)

/-- Is this call outcome one the wrapper retries: an exception with a
response that is a 429 or carries a Backoff header. -/
def retryable_exn (e : ZExn) : Bool :=
  match e.response with
  | some r => r.status == 429 || r.headers.backoff.isSome
  | none => false

def retryable {α : Type} (c : ZCallResult α) : Bool :=
  match c with
  | .ok _ _ => false
  | .exn e => retryable_exn e

/-- How `_handle_request` ends. -/
inductive ZOutcome (α : Type) where
  | ok (v : α)
  | raised (e : ZExn)
  | terminal (msg : String)

/-- One entry per executed call: the deadlines in force when the iteration
started and the time at which the call was issued (after the sleep). -/
structure CallRecord where
  backoff_until : Int
  retry_after_until : Int
  time : Int
deriving DecidableEq, Repr

structure ZRun (α : Type) where
  outcome : ZOutcome α
  state : RLState
  now : Int
  calls : List CallRecord

/-- The `while retry_count < max_retries` loop of
`ZoteroClient._handle_request`; `fuel` is `max_retries - retry_count` and
`f k` is what the k-th execution of `func(*args, **kwargs)` does. -/
def hr_loop {α : Type} (f : Nat → ZCallResult α) :
    Nat → Nat → RLState → Int → ZRun α
  | 0, _, st, now => ⟨.terminal "Echec apres 3 tentatives", st, now, []⟩
  | fuel + 1, k, st, now =>
      let w := should_wait st now
      let t := now + w
      let cr : CallRecord := ⟨st.backoff_until, st.retry_after_until, t⟩
      match f k with
      | .ok v hdrs =>
          let st2 := match hdrs with
            | some h => handle_response_headers h t st
            | none => st
          ⟨.ok v, st2, t, [cr]⟩
      | .exn e =>
          match e.response with
          | some r =>
              if r.status == 429 then
                let st2 := handle_response_headers r.headers t st
                let rest := hr_loop f fuel (k + 1) st2 t
                ⟨rest.outcome, rest.state, rest.now, cr :: rest.calls⟩
              else if r.headers.backoff.isSome then
                let st2 := handle_response_headers r.headers t st
                let rest := hr_loop f fuel (k + 1) st2 t
                ⟨rest.outcome, rest.state, rest.now, cr :: rest.calls⟩
              else ⟨.raised e, st, t, [cr]⟩
          | none => ⟨.raised e, st, t, [cr]⟩

/-- `ZoteroClient._handle_request` with `max_retries = 3`. -/
def handle_request {α : Type} (f : Nat → ZCallResult α) (st : RLState) (now : Int) : ZRun α :=
  hr_loop f 3 0 st now

/-! ## Claim C6 : brace extraction -/

/-- C6: for every input string, `_extract_json_from_text` returns the
substring from the first opening brace to the last closing brace
inclusive, and raises (rather than returning anything, in particular an
empty string) whenever the input contains no opening brace. -/
theorem extract_json_from_text_c6 (text : String) :
    ('{' ∉ text.toList → ∃ msg, extract_json_from_text text = .error msg) ∧
    (∀ start stop : Nat,
      text.toList.get? start = some '{' →
      (∀ j, j < start → text.toList.get? j ≠ some '{') →
      text.toList.get? stop = some '}' →
      (∀ j, stop < j → text.toList.get? j ≠ some '}') →
      extract_json_from_text text =
        .ok (String.mk ((text.toList.drop start).take (stop + 1 - start)))) := by
  constructor
  · intro h
    have hf : py_find text.toList '{' = none := (py_find_eq_none _ _).mpr h
    refine ⟨"Aucun objet JSON trouve dans la reponse", ?_⟩
    unfold extract_json_from_text
    rw [hf]
  · intro start stop h1 h2 h3 h4
    have hmem1 : '{' ∈ text.toList := List.get?_mem h1
    have hmem2 : '}' ∈ text.toList := List.get?_mem h3
    obtain ⟨s0, hs0⟩ : ∃ s0, py_find text.toList '{' = some s0 := by
      cases hf : py_find text.toList '{' with
      | none => exact absurd hmem1 ((py_find_eq_none _ _).mp hf)
      | some s0 => exact ⟨s0, rfl⟩
    obtain ⟨e0, he0⟩ : ∃ e0, py_rfind text.toList '}' = some e0 := by
      cases hf : py_rfind text.toList '}' with
      | none => exact absurd hmem2 ((py_rfind_eq_none _ _).mp hf)
      | some e0 => exact ⟨e0, rfl⟩
    obtain ⟨hg1, hmin⟩ := py_find_first _ _ _ hs0
    obtain ⟨hg2, hmax⟩ := py_rfind_last _ _ _ he0
    have hss : s0 = start := by
      rcases Nat.lt_trichotomy s0 start with hlt | heq | hgt
      · exact absurd hg1 (h2 s0 hlt)
      · exact heq
      · exact absurd h1 (hmin start hgt)
    have hee : e0 = stop := by
      rcases Nat.lt_trichotomy e0 stop with hlt | heq | hgt
      · exact absurd h3 (hmax stop hlt)
      · exact heq
      · exact absurd hg2 (h4 e0 hgt)
    subst hss
    subst hee
    unfold extract_json_from_text
    rw [hs0, he0]

/-- Witness for C6 at concrete inputs. -/
theorem extract_json_from_text_c6_witness :
    extract_json_from_text "ab\x7bcd\x7de" = .ok "\x7bcd\x7d" ∧
    (∃ msg, extract_json_from_text "abc" = .error msg) := by
  constructor
  · have h := (extract_json_from_text_c6 "ab\x7bcd\x7de").2 2 5
      (by decide)
      (by intro j hj; interval_cases j <;> decide)
      (by decide)
      (by
        intro j hj
        by_cases h7 : j < 7
        · interval_cases j
          decide
        · intro hc
          have hlen : ("ab\x7bcd\x7de".toList).length ≤ j := by simp; omega
          rw [List.get?_eq_none.mpr hlen] at hc
          exact Option.noConfusion hc)
    simpa using h
  · exact (extract_json_from_text_c6 "abc").1 (by decide)

/-! ## Claims C1 and C9 : what _validate_output_format checks -/

theorem validate_authors_list_ok (l : List JValue) :
    validate_authors_list l = .ok () ↔ ∀ a ∈ l, a.isObj = true := by
  induction l with
  | nil => simp [validate_authors_list]
  | cons a rest ih =>
      by_cases ha : a.isObj
      · simp [validate_authors_list, ha, ih]
      · constructor
        · intro h
          simp [validate_authors_list, ha] at h
        · intro hall
          exact absurd (hall a (by simp)) ha

theorem validate_output_format_ok (data : JObj) :
    validate_output_format data = .ok () ↔
      validate_authors data = .ok () ∧ validate_date data = .ok () ∧
        validate_tags data = .ok () := by
  unfold validate_output_format
  cases h1 : validate_authors data with
  | error e => simp
  | ok u =>
      cases u
      cases h2 : validate_date data with
      | error e => simp
      | ok u => cases u; simp

/-- C1 counterexample: the validator accepts an author entry carrying both
shapes (lastName+firstName and denomination) and an author entry carrying
neither; the claimed exclusivity check does not exist in the code. -/
theorem validate_authors_c1_counterexample :
    validate_output_format
      [("authors", .arr [.obj [("lastName", .str "Dupont"), ("firstName", .str "Jean"),
                              ("denomination", .str "Le Prefet coordonnateur")]])] = .ok () ∧
    validate_output_format [("authors", .arr [.obj []])] = .ok () := by
  exact ⟨rfl, rfl⟩

/-- C1 amended: for a present `authors` list, validation checks exactly
that every entry is a dict — an entry with both shapes or neither passes,
and validation as a whole accepts only lists of dicts in `authors`. -/
theorem validate_authors_c1_amended (data : JObj) (authors : List JValue)
    (h : jget data "authors" = some (.arr authors)) :
    (validate_authors data = .ok () ↔ ∀ a ∈ authors, a.isObj = true) ∧
    (validate_output_format data = .ok () → ∀ a ∈ authors, a.isObj = true) := by
  have hmain : validate_authors data = .ok () ↔ ∀ a ∈ authors, a.isObj = true := by
    unfold validate_authors
    rw [h]
    exact validate_authors_list_ok authors
  refine ⟨hmain, fun hok => hmain.mp ?_⟩
  exact ((validate_output_format_ok data).mp hok).1

/-- Witness for the amended C1: an author entry with all three fields set
passes the authors check. -/
theorem validate_authors_c1_witness :
    validate_authors
      [("authors", .arr [.obj [("lastName", .str "Dupont"), ("firstName", .str "Jean"),
                              ("denomination", .str "Le Prefet coordonnateur")]])] = .ok () := by
  refine (validate_authors_c1_amended
      [("authors", .arr [.obj [("lastName", .str "Dupont"), ("firstName", .str "Jean"),
                              ("denomination", .str "Le Prefet coordonnateur")]])]
      [.obj [("lastName", .str "Dupont"), ("firstName", .str "Jean"),
             ("denomination", .str "Le Prefet coordonnateur")]] rfl).1.mpr ?_
  intro a ha
  simp at ha
  subst ha
  rfl

theorem validate_tags_list_ok (l : List JValue) :
    validate_tags_list l = .ok () ↔
      ∀ t ∈ l, ∃ o s, t = .obj o ∧ jget o "tag" = some (.str s) ∧
        startsDotSlash s = true ∧ 2 < s.length := by
  induction l with
  | nil => simp [validate_tags_list]
  | cons t rest ih =>
      cases t with
      | obj o =>
          cases hg : jget o "tag" with
          | none =>
              constructor
              · intro h
                simp [validate_tags_list, hg] at h
              · intro hall
                obtain ⟨o2, s, heq, hget, _, _⟩ := hall (.obj o) (by simp)
                obtain rfl : o = o2 := by injection heq
                rw [hg] at hget
                exact Option.noConfusion hget
          | some v =>
              cases v with
              | str s =>
                  by_cases hs : startsDotSlash s
                  · by_cases hl : s.length ≤ 2
                    · constructor
                      · intro h
                        simp [validate_tags_list, hg, hs, hl] at h
                      · intro hall
                        obtain ⟨o2, s2, heq, hget, _, hlen⟩ := hall (.obj o) (by simp)
                        obtain rfl : o = o2 := by injection heq
                        rw [hg] at hget
                        obtain rfl : s = s2 := by
                          have := Option.some.inj hget
                          injection this
                        omega
                    · have step : validate_tags_list (JValue.obj o :: rest) =
                          validate_tags_list rest := by
                        simp [validate_tags_list, hg, hs, hl]
                      rw [step, ih]
                      constructor
                      · intro hall
                        intro t ht
                        rcases List.mem_cons.mp ht with rfl | hmem
                        · exact ⟨o, s, rfl, hg, hs, by omega⟩
                        · exact hall t hmem
                      · intro hall t ht
                        exact hall t (List.mem_cons_of_mem _ ht)
                  · constructor
                    · intro h
                      simp [validate_tags_list, hg, hs] at h
                    · intro hall
                      obtain ⟨o2, s2, heq, hget, hstart, _⟩ := hall (.obj o) (by simp)
                      obtain rfl : o = o2 := by injection heq
                      rw [hg] at hget
                      obtain rfl : s = s2 := by
                        have := Option.some.inj hget
                        injection this
                      exact absurd hstart hs
              | null =>
                  constructor
                  · intro h
                    simp [validate_tags_list, hg] at h
                  · intro hall
                    obtain ⟨o2, s2, heq, hget, _, _⟩ := hall (.obj o) (by simp)
                    obtain rfl : o = o2 := by injection heq
                    rw [hg] at hget
                    have := Option.some.inj hget
                    exact JValue.noConfusion this
              | bool b =>
                  constructor
                  · intro h
                    simp [validate_tags_list, hg] at h
                  · intro hall
                    obtain ⟨o2, s2, heq, hget, _, _⟩ := hall (.obj o) (by simp)
                    obtain rfl : o = o2 := by injection heq
                    rw [hg] at hget
                    have := Option.some.inj hget
                    exact JValue.noConfusion this
              | num n =>
                  constructor
                  · intro h
                    simp [validate_tags_list, hg] at h
                  · intro hall
                    obtain ⟨o2, s2, heq, hget, _, _⟩ := hall (.obj o) (by simp)
                    obtain rfl : o = o2 := by injection heq
                    rw [hg] at hget
                    have := Option.some.inj hget
                    exact JValue.noConfusion this
              | arr xs =>
                  constructor
                  · intro h
                    simp [validate_tags_list, hg] at h
                  · intro hall
                    obtain ⟨o2, s2, heq, hget, _, _⟩ := hall (.obj o) (by simp)
                    obtain rfl : o = o2 := by injection heq
                    rw [hg] at hget
                    have := Option.some.inj hget
                    exact JValue.noConfusion this
              | obj fs =>
                  constructor
                  · intro h
                    simp [validate_tags_list, hg] at h
                  · intro hall
                    obtain ⟨o2, s2, heq, hget, _, _⟩ := hall (.obj o) (by simp)
                    obtain rfl : o = o2 := by injection heq
                    rw [hg] at hget
                    have := Option.some.inj hget
                    exact JValue.noConfusion this
      | null =>
          constructor
          · intro h
            simp [validate_tags_list] at h
          · intro hall
            obtain ⟨o2, s2, heq, _, _, _⟩ := hall .null (by simp)
            exact JValue.noConfusion heq
      | bool b =>
          constructor
          · intro h
            simp [validate_tags_list] at h
          · intro hall
            obtain ⟨o2, s2, heq, _, _, _⟩ := hall (.bool b) (by simp)
            exact JValue.noConfusion heq
      | num n =>
          constructor
          · intro h
            simp [validate_tags_list] at h
          · intro hall
            obtain ⟨o2, s2, heq, _, _, _⟩ := hall (.num n) (by simp)
            exact JValue.noConfusion heq
      | str s =>
          constructor
          · intro h
            simp [validate_tags_list] at h
          · intro hall
            obtain ⟨o2, s2, heq, _, _, _⟩ := hall (.str s) (by simp)
            exact JValue.noConfusion heq
      | arr xs =>
          constructor
          · intro h
            simp [validate_tags_list] at h
          · intro hall
            obtain ⟨o2, s2, heq, _, _, _⟩ := hall (.arr xs) (by simp)
            exact JValue.noConfusion heq

/-- C9: when validation succeeds, every entry of a present `tags` list is a
dict whose string field `tag` starts with `./` and is strictly longer than
2 characters; conversely any violating entry makes validation fail. -/
theorem validate_tags_c9 (data : JObj) (tags : List JValue)
    (h : jget data "tags" = some (.arr tags)) :
    (validate_output_format data = .ok () →
      ∀ t ∈ tags, ∃ o s, t = .obj o ∧ jget o "tag" = some (.str s) ∧
        startsDotSlash s = true ∧ 2 < s.length) ∧
    ((∃ t ∈ tags, ¬ ∃ o s, t = .obj o ∧ jget o "tag" = some (.str s) ∧
        startsDotSlash s = true ∧ 2 < s.length) →
      ∃ msg, validate_output_format data = .error msg) := by
  have htags : validate_tags data = .ok () ↔
      ∀ t ∈ tags, ∃ o s, t = .obj o ∧ jget o "tag" = some (.str s) ∧
        startsDotSlash s = true ∧ 2 < s.length := by
    unfold validate_tags
    rw [h]
    exact validate_tags_list_ok tags
  constructor
  · intro hok
    exact htags.mp ((validate_output_format_ok data).mp hok).2.2
  · rintro ⟨t, ht, hbad⟩
    cases hv : validate_output_format data with
    | error msg => exact ⟨msg, rfl⟩
    | ok u =>
        cases u
        exact absurd (htags.mp ((validate_output_format_ok data).mp hv).2.2 t ht) hbad

/-- Witness for C9: a well-formed tag passes and the bare `./` tag makes
validation fail. -/
theorem validate_tags_c9_witness :
    (∃ o s, (JValue.obj [("tag", JValue.str "./admin")]) = .obj o ∧
      jget o "tag" = some (.str s) ∧ startsDotSlash s = true ∧ 2 < s.length) ∧
    (∃ msg, validate_output_format [("tags", .arr [.obj [("tag", .str "./")]])] = .error msg) := by
  constructor
  · exact ((validate_tags_c9 [("tags", .arr [.obj [("tag", .str "./admin")]])]
      [.obj [("tag", .str "./admin")]] rfl).1 rfl) _ (by simp)
  · refine (validate_tags_c9 [("tags", .arr [.obj [("tag", .str "./")]])]
        [.obj [("tag", .str "./")]] rfl).2 ?_
    refine ⟨.obj [("tag", .str "./")], by simp, ?_⟩
    rintro ⟨o, s, heq, hget, hstart, hlen⟩
    obtain rfl : [(("tag" : String), JValue.str "./")] = o := by injection heq
    simp [jget] at hget
    subst hget
    exact absurd hlen (by decide)

/-! ## Claim C7 : unconditional token accounting -/

/-- C7: after a generation call that returns, the counters grow by exactly
the reported usage whatever the rest of the pipeline does (`parse` and the
returned content are arbitrary, covering failing JSON extraction, parsing
and validation), and the counters never decrease, neither across one call
(whether or not generate succeeded) nor across any batch of calls. -/
theorem extract_metadata_c7 (llm : Nat → Except PyErr GenResult)
    (parse : String → Except String JObj) (st : Counters) (r : GenResult)
    (h : llm 0 = .ok r) :
    (extract_metadata llm parse st).2.1 =
      ⟨st.total_input_tokens + r.usage.input_tokens,
       st.total_output_tokens + r.usage.output_tokens⟩ ∧
    (∀ (llm2 : Nat → Except PyErr GenResult) (parse2 : String → Except String JObj)
        (st2 : Counters),
      st2.total_input_tokens ≤ (extract_metadata llm2 parse2 st2).2.1.total_input_tokens ∧
      st2.total_output_tokens ≤ (extract_metadata llm2 parse2 st2).2.1.total_output_tokens) ∧
    (∀ (calls : List ExtractionCall) (st0 : Counters),
      st0.total_input_tokens ≤ (run_extractions calls st0).total_input_tokens ∧
      st0.total_output_tokens ≤ (run_extractions calls st0).total_output_tokens) := by
  refine ⟨?_, ?_, ?_⟩
  · rw [extract_metadata_counters]
    simp [call_usage, h]
  · intro llm2 parse2 st2
    rw [extract_metadata_counters]
    exact ⟨Nat.le_add_right _ _, Nat.le_add_right _ _⟩
  · intro calls st0
    rw [run_extractions_closed]
    exact ⟨Nat.le_add_right _ _, Nat.le_add_right _ _⟩

/-- Witness for C7: a call whose content has no brace (so extraction
fails) and whose parser always fails still adds its reported usage. -/
theorem extract_metadata_c7_witness :
    (extract_metadata (fun _ => .ok ⟨"sans accolade", ⟨5, 7⟩⟩)
        (fun _ => .error "echec") ⟨100, 200⟩).2.1 = ⟨105, 207⟩ := by
  have h := (extract_metadata_c7 (fun _ => .ok ⟨"sans accolade", ⟨5, 7⟩⟩)
      (fun _ => .error "echec") ⟨100, 200⟩ ⟨"sans accolade", ⟨5, 7⟩⟩ rfl).1
  simpa using h

/-! ## Claim C8 : cost accounting is linear and order-independent -/

/-- C8: accumulating any permutation of a batch of generation calls yields
the same counters, hence the same cost report, and `calculate_cost` is the
stated pure function of the counters and the price table, in exact
rational (Decimal) arithmetic, with total = input cost + output cost. -/
theorem calculate_cost_c8 (calls calls2 : List ExtractionCall) (st : Counters)
    (costs : ModelCosts) (hperm : calls.Perm calls2) :
    run_extractions calls st = run_extractions calls2 st ∧
    calculate_cost (run_extractions calls st) costs =
      calculate_cost (run_extractions calls2 st) costs ∧
    (∀ c : Counters,
      (calculate_cost c costs).input_tokens = c.total_input_tokens ∧
      (calculate_cost c costs).output_tokens = c.total_output_tokens ∧
      (calculate_cost c costs).input_cost =
        ((c.total_input_tokens : Rat) / 1000000) * costs.input_tokens ∧
      (calculate_cost c costs).output_cost =
        ((c.total_output_tokens : Rat) / 1000000) * costs.output_tokens ∧
      (calculate_cost c costs).total_cost =
        (calculate_cost c costs).input_cost + (calculate_cost c costs).output_cost) := by
  have he : run_extractions calls st = run_extractions calls2 st := by
    rw [run_extractions_closed, run_extractions_closed]
    rw [(hperm.map (fun c => (call_usage c).input_tokens)).sum_eq,
        (hperm.map (fun c => (call_usage c).output_tokens)).sum_eq]
  exact ⟨he, by rw [he], fun c => ⟨rfl, rfl, rfl, rfl, rfl⟩⟩

/-- Witness for C8: two concrete calls in either order. -/
theorem calculate_cost_c8_witness :
    run_extractions
      [(fun _ => .ok ⟨"alpha", ⟨1, 2⟩⟩, fun _ => .error "p"),
       (fun _ => .ok ⟨"beta", ⟨10, 20⟩⟩, fun _ => .error "p")] ⟨0, 0⟩ =
    run_extractions
      [(fun _ => .ok ⟨"beta", ⟨10, 20⟩⟩, fun _ => .error "p"),
       (fun _ => .ok ⟨"alpha", ⟨1, 2⟩⟩, fun _ => .error "p")] ⟨0, 0⟩ :=
  (calculate_cost_c8
    [(fun _ => .ok ⟨"alpha", ⟨1, 2⟩⟩, fun _ => .error "p"),
     (fun _ => .ok ⟨"beta", ⟨10, 20⟩⟩, fun _ => .error "p")]
    [(fun _ => .ok ⟨"beta", ⟨10, 20⟩⟩, fun _ => .error "p"),
     (fun _ => .ok ⟨"alpha", ⟨1, 2⟩⟩, fun _ => .error "p")]
    ⟨0, 0⟩ ⟨1, 5⟩
    (List.Perm.swap _ _ _)).1

/-! ## Claim C2 : what happens when generate raises -/

/-- C2 counterexample: with a backend whose generate raises, the error
reaching the caller of `extract_metadata` is not the backend error — the
except handler references the unassigned local `result` and raises
UnboundLocalError instead. -/
theorem extract_metadata_c2_counterexample :
    (extract_metadata (fun _ => .error (.backendError 0 "boom"))
        (fun _ => .error "p") ⟨0, 0⟩).1 = .error (.unboundLocalError "result") ∧
    (extract_metadata (fun _ => .error (.backendError 0 "boom"))
        (fun _ => .error "p") ⟨0, 0⟩).1 ≠ .error (.backendError 0 "boom") := by
  refine ⟨rfl, ?_⟩
  intro h
  have h2 : PyErr.unboundLocalError "result" = PyErr.backendError 0 "boom" := by
    have h1 : (extract_metadata (fun _ => .error (.backendError 0 "boom"))
        (fun _ => .error "p") (⟨0, 0⟩ : Counters)).1 =
        .error (.unboundLocalError "result") := rfl
    rw [h1] at h
    exact Except.error.inj h
  exact PyErr.noConfusion h2

/-- C2 amended: when generate raises, exactly one generation call is made
(no retry at this layer) and the counters are untouched, but the backend
error does not propagate unmodified: the caller receives
UnboundLocalError("result") raised by the except handler itself. -/
theorem extract_metadata_c2_amended (llm : Nat → Except PyErr GenResult)
    (parse : String → Except String JObj) (st : Counters) (e : PyErr)
    (h : llm 0 = .error e) :
    extract_metadata llm parse st = (.error (.unboundLocalError "result"), st, 1) := by
  unfold extract_metadata
  rw [h]

/-- Witness for the amended C2. -/
theorem extract_metadata_c2_witness :
    extract_metadata (fun _ => .error (.backendError 1 "down"))
        (fun _ => .error "p") ⟨3, 4⟩ = (.error (.unboundLocalError "result"), ⟨3, 4⟩, 1) :=
  extract_metadata_c2_amended (fun _ => .error (.backendError 1 "down"))
    (fun _ => .error "p") ⟨3, 4⟩ (.backendError 1 "down") rfl

/-! ## Claim C4 : merging filename-derived metadata -/

theorem extract_filename_keys (basename : String) (fm : JObj)
    (h : extract_metadata_from_filename basename = some fm) :
    ∃ d t, fm = [("accessDate", JValue.str d), ("extra", JValue.str t)] := by
  unfold extract_metadata_from_filename at h
  cases hm : camscanner_match basename.toList with
  | none => rw [hm] at h; exact Option.noConfusion h
  | some m =>
      rw [hm] at h
      by_cases hv : strptime_valid
          (digitVal m.d1 * 10 + digitVal m.d2)
          (digitVal m.mo1 * 10 + digitVal m.mo2)
          (digitVal m.y1 * 1000 + digitVal m.y2 * 100 + digitVal m.y3 * 10 + digitVal m.y4)
      · simp only [hv, if_true] at h
        exact ⟨_, _, (Option.some.inj h).symm⟩
      · simp only [hv, if_false] at h
        exact Option.noConfusion h

/-- C4 counterexample: a model-derived `accessDate` does not survive the
merge — `metadata.update(filename_metadata)` overwrites it with the
filename-derived date. -/
theorem add_filename_metadata_c4_counterexample :
    jget (add_filename_metadata
        [("title", .str "T"), ("accessDate", .str "1999-01-01")]
        "CamScanner 12-03-2024 14.30_hnOCR.pdf") "accessDate" =
      some (.str "2024-03-12") ∧
    jget (add_filename_metadata
        [("title", .str "T"), ("accessDate", .str "1999-01-01")]
        "CamScanner 12-03-2024 14.30_hnOCR.pdf") "accessDate" ≠
      some (.str "1999-01-01") := by
  refine ⟨rfl, ?_⟩
  intro h
  have h1 : jget (add_filename_metadata
      [("title", .str "T"), ("accessDate", .str "1999-01-01")]
      "CamScanner 12-03-2024 14.30_hnOCR.pdf") "accessDate" =
      some (JValue.str "2024-03-12") := rfl
  rw [h1] at h
  have h2 : JValue.str "2024-03-12" = JValue.str "1999-01-01" := Option.some.inj h
  have h3 : "2024-03-12" = "1999-01-01" := by injection h2
  exact absurd h3 (by decide)

/-- C4 amended: the merge leaves every model-derived key other than
`accessDate` and `extra` untouched, and gives those two keys the
filename-derived values (overwriting any model-derived value they had). -/
theorem add_filename_metadata_c4_amended (metadata : JObj) (basename : String)
    (k : String) (h1 : k ≠ "accessDate") (h2 : k ≠ "extra") :
    jget (add_filename_metadata metadata basename) k = jget metadata k ∧
    (∀ fm, extract_metadata_from_filename basename = some fm →
      jget (add_filename_metadata metadata basename) "accessDate" = jget fm "accessDate" ∧
      jget (add_filename_metadata metadata basename) "extra" = jget fm "extra") := by
  cases hf : extract_metadata_from_filename basename with
  | none =>
      refine ⟨?_, ?_⟩
      · unfold add_filename_metadata
        rw [hf]
      · intro fm hfm
        exact Option.noConfusion hfm
  | some fm =>
      obtain ⟨d, t, rfl⟩ := extract_filename_keys basename fm hf
      have hstep : add_filename_metadata metadata basename =
          dictUpdate metadata [("accessDate", JValue.str d), ("extra", JValue.str t)] := by
        unfold add_filename_metadata
        rw [hf]
      refine ⟨?_, ?_⟩
      · rw [hstep]
        apply jget_dictUpdate_of_none
        have h1s : ¬("accessDate" = k) := fun he => h1 he.symm
        have h2s : ¬("extra" = k) := fun he => h2 he.symm
        simp [jget, h1s, h2s]
      · intro fm2 hfm2
        obtain rfl := Option.some.inj hfm2
        rw [hstep]
        constructor
        · rw [jget_dictUpdate_of_some _ _ _ (JValue.str d) (by simp [jget])]
          simp [jget]
        · rw [jget_dictUpdate_of_some _ _ _ (JValue.str t) (by simp [jget])]
          simp [jget]

/-- Witness for the amended C4. -/
theorem add_filename_metadata_c4_witness :
    jget (add_filename_metadata [("title", .str "T")]
        "CamScanner 01-02-2023 09.15_hnOCR.pdf") "title" =
      jget [("title", JValue.str "T")] "title" ∧
    jget (add_filename_metadata [("title", .str "T")]
        "CamScanner 01-02-2023 09.15_hnOCR.pdf") "accessDate" =
      jget [("accessDate", JValue.str "2023-02-01"), ("extra", JValue.str "09:15")] "accessDate" := by
  have h := add_filename_metadata_c4_amended [("title", .str "T")]
    "CamScanner 01-02-2023 09.15_hnOCR.pdf" "title" (by decide) (by decide)
  exact ⟨h.1, (h.2 [("accessDate", JValue.str "2023-02-01"), ("extra", JValue.str "09:15")] rfl).1⟩

/-! ## Claim C10 : formatting authors is total on lists of dicts -/

theorem jget_filterMap_fields (metadata : JObj) (fs : List String) (k : String)
    (hk : k ∉ fs) :
    jget (fs.filterMap (fun f => (jget metadata f).map (fun v => (f, v)))) k = none := by
  induction fs with
  | nil => simp [jget]
  | cons f rest ih =>
      have hk1 : k ≠ f := fun he => hk (by simp [he])
      have hk2 : k ∉ rest := fun he => hk (by simp [he])
      cases hf : jget metadata f with
      | none => simpa [List.filterMap_cons, hf] using ih hk2
      | some v =>
          have hfk : ¬(f = k) := fun he => hk1 he.symm
          simp only [List.filterMap_cons, hf, Option.map_some]
          simpa [jget, hfk] using ih hk2

theorem format_creators_list_map (authors : List JObj) :
    format_creators_list (authors.map JValue.obj) = .ok (authors.map format_creator) := by
  induction authors with
  | nil => rfl
  | cons a rest ih => simp [format_creators_list, ih, Except.map]

/-- C10: on any metadata whose `authors` value is a list of dicts,
`_format_metadata_for_zotero` succeeds, produces exactly one creator per
author entry, and maps each entry by the stated case analysis (full name,
single-field name from lastName alone or denomination, and the catch-all
Unknown Author creator instead of failing). -/
theorem format_metadata_c10 (metadata : JObj) (authors : List JObj)
    (h : jget metadata "authors" = some (.arr (authors.map JValue.obj))) :
    (∃ out, format_metadata_for_zotero metadata = .ok out ∧
      jget out "creators" = some (.arr ((authors.map format_creator).map JValue.obj)) ∧
      (authors.map format_creator).length = authors.length) ∧
    (∀ a : JObj,
      (jtruthy (jget a "lastName") = true → jtruthy (jget a "firstName") = true →
        ∃ lv fv, jget a "lastName" = some lv ∧ jget a "firstName" = some fv ∧
          format_creator a =
            [("creatorType", .str "author"), ("lastName", lv), ("firstName", fv)]) ∧
      (jtruthy (jget a "lastName") = true → jtruthy (jget a "firstName") = false →
        ∃ lv, jget a "lastName" = some lv ∧
          format_creator a = [("creatorType", .str "author"), ("name", lv)]) ∧
      (jtruthy (jget a "lastName") = false → jtruthy (jget a "denomination") = true →
        ∃ dv, jget a "denomination" = some dv ∧
          format_creator a = [("creatorType", .str "author"), ("name", dv)]) ∧
      (jtruthy (jget a "lastName") = false → jtruthy (jget a "denomination") = false →
        format_creator a = [("creatorType", .str "author"), ("name", .str "Unknown Author")])) := by
  constructor
  · have hrun : format_creators_list (authors.map JValue.obj) =
        .ok (authors.map format_creator) := format_creators_list_map authors
    have hout : format_metadata_for_zotero metadata =
        .ok ((simple_fields.filterMap (fun f => (jget metadata f).map (fun v => (f, v))) ++
          (match jget metadata "scanTime" with
           | some v => [("extra", JValue.str ("Scan time: " ++ pyStr v))]
           | none => [])) ++
          [("creators", JValue.arr ((authors.map format_creator).map JValue.obj))] ++
          (match jget metadata "tags" with
           | some v => [("tags", v)]
           | none => [])) := by
      simp only [format_metadata_for_zotero, h, hrun]
    refine ⟨_, hout, ?_, by simp⟩
    have hs : jget (simple_fields.filterMap
        (fun f => (jget metadata f).map (fun v => (f, v)))) "creators" = none :=
      jget_filterMap_fields metadata simple_fields "creators" (by decide)
    rw [jget_append, jget_append, jget_append, hs]
    cases hscan : jget metadata "scanTime" <;>
      simp [jget, Option.orElse]
  · intro a
    refine ⟨?_, ?_, ?_, ?_⟩
    · intro hl hf
      cases hlv : jget a "lastName" with
      | none => rw [hlv] at hl; exact Bool.noConfusion hl
      | some lv =>
          cases hfv : jget a "firstName" with
          | none => rw [hfv] at hf; exact Bool.noConfusion hf
          | some fv =>
              refine ⟨lv, fv, rfl, rfl, ?_⟩
              have hl2 : jtruthy (some lv) = true := by rw [← hlv]; exact hl
              have hf2 : jtruthy (some fv) = true := by rw [← hfv]; exact hf
              simp [format_creator, hlv, hfv, hl2, hf2]
    · intro hl hf
      cases hlv : jget a "lastName" with
      | none => rw [hlv] at hl; exact Bool.noConfusion hl
      | some lv =>
          refine ⟨lv, rfl, ?_⟩
          have hl2 : jtruthy (some lv) = true := by rw [← hlv]; exact hl
          have hf2 : jtruthy (jget a "firstName") = false := hf
          simp [format_creator, hlv, hl2, hf2]
    · intro hl hd
      cases hdv : jget a "denomination" with
      | none => rw [hdv] at hd; exact Bool.noConfusion hd
      | some dv =>
          refine ⟨dv, rfl, ?_⟩
          have hd2 : jtruthy (some dv) = true := by rw [← hdv]; exact hd
          simp [format_creator, hl, hdv, hd2]
    · intro hl hd
      simp [format_creator, hl, hd]

/-- Witness for C10: three author shapes plus an empty dict author. -/
theorem format_metadata_c10_witness :
    ∃ out, format_metadata_for_zotero
        [("authors", .arr [
          .obj [("lastName", .str "Dupont"), ("firstName", .str "Jean")],
          .obj [("denomination", .str "Le Prefet coordonnateur")],
          .obj []])] = .ok out ∧
      jget out "creators" = some (.arr (([
          [("lastName", JValue.str "Dupont"), ("firstName", JValue.str "Jean")],
          [("denomination", JValue.str "Le Prefet coordonnateur")],
          ([] : JObj)].map format_creator).map JValue.obj)) ∧
      ([([("lastName", JValue.str "Dupont"), ("firstName", JValue.str "Jean")] : JObj),
        [("denomination", JValue.str "Le Prefet coordonnateur")],
        []].map format_creator).length = 3 :=
  (format_metadata_c10
    [("authors", .arr [
      .obj [("lastName", .str "Dupont"), ("firstName", .str "Jean")],
      .obj [("denomination", .str "Le Prefet coordonnateur")],
      .obj []])]
    [[("lastName", .str "Dupont"), ("firstName", .str "Jean")],
     [("denomination", .str "Le Prefet coordonnateur")],
     []] rfl).1

/-! ## Claim C5 : duplicate-safe import -/

/-- The guard of the duplicate loop does reject before any creation when a
matching md5 with a parent is already stored: the catalog is returned
unchanged with a raised ValueError. -/
theorem process_pdf_rejects_on_stored_md5 (cat : Catalog) (file_hash basename : String)
    (collections : List String) (mres : Except PyErr JObj) (it : ZItem)
    (h : (cat.items.filter isAttachmentItem).find? (dup_check file_hash) = some it) :
    process_pdf cat file_hash basename collections mres =
      (.error (.valueError ("Ce PDF existe deja dans Zotero (ID: " ++ parent_of it ++ ")")), cat) := by
  unfold process_pdf
  rw [h]

/-- C5 failing run: submitting the same bytes twice through `process_pdf`
on an empty catalog succeeds BOTH times and leaves four items. The first
submission stores no md5 anywhere (the attachment is created from a
metadata-only template and the PDF binary is never uploaded), so the
second submission finds no hash match and creates a second parent and
attachment instead of being rejected. -/
theorem process_pdf_c5_bug :
    (∃ it, (process_pdf ⟨[], 0⟩ "d41d8cd98f00b204e9800998ecf8427e" "a.pdf" [] (.ok [])).1 =
      .ok it) ∧
    (∃ it, (process_pdf
        (process_pdf ⟨[], 0⟩ "d41d8cd98f00b204e9800998ecf8427e" "a.pdf" [] (.ok [])).2
        "d41d8cd98f00b204e9800998ecf8427e" "b.pdf" [] (.ok [])).1 = .ok it) ∧
    (process_pdf
        (process_pdf ⟨[], 0⟩ "d41d8cd98f00b204e9800998ecf8427e" "a.pdf" [] (.ok [])).2
        "d41d8cd98f00b204e9800998ecf8427e" "b.pdf" [] (.ok [])).2.items.length = 4 ∧
    ((process_pdf ⟨[], 0⟩ "d41d8cd98f00b204e9800998ecf8427e" "a.pdf" [] (.ok [])).2.items.all
        (fun it => (jget it.data "md5").isNone)) = true := by
  exact ⟨⟨_, rfl⟩, ⟨_, rfl⟩, rfl, rfl⟩

/-! ## Claim C3 : the rate-limit retry wrapper -/

theorem hr_loop_ok_step {α : Type} (f : Nat → ZCallResult α) (fuel k : Nat)
    (st : RLState) (now : Int) (v : α) (hdrs : Option ZHeaders)
    (hf : f k = .ok v hdrs) :
    ∃ st2, hr_loop f (fuel + 1) k st now =
      ⟨.ok v, st2, now + should_wait st now,
       [⟨st.backoff_until, st.retry_after_until, now + should_wait st now⟩]⟩ := by
  cases hdrs with
  | some h =>
      refine ⟨handle_response_headers h (now + should_wait st now) st, ?_⟩
      simp only [hr_loop, hf]
  | none =>
      refine ⟨st, ?_⟩
      simp only [hr_loop, hf]

theorem hr_loop_raise_step {α : Type} (f : Nat → ZCallResult α) (fuel k : Nat)
    (st : RLState) (now : Int) (e : ZExn)
    (hf : f k = .exn e) (hne : retryable_exn e = false) :
    hr_loop f (fuel + 1) k st now =
      ⟨.raised e, st, now + should_wait st now,
       [⟨st.backoff_until, st.retry_after_until, now + should_wait st now⟩]⟩ := by
  cases hr : e.response with
  | none => simp only [hr_loop, hf, hr]
  | some r =>
      simp only [retryable_exn, hr] at hne
      have h1 : (r.status == 429) = false := by
        cases hx : (r.status == 429) with
        | false => rfl
        | true => rw [hx] at hne; simp at hne
      have h2 : (r.headers.backoff.isSome) = false := by
        cases hx : r.headers.backoff.isSome with
        | false => rfl
        | true => rw [hx] at hne; simp at hne
      simp only [hr_loop, hf, hr, h1, h2, Bool.false_eq_true, if_false]

theorem hr_loop_retry_step {α : Type} (f : Nat → ZCallResult α) (fuel k : Nat)
    (st : RLState) (now : Int) (h : retryable (f k) = true) :
    ∃ st2, hr_loop f (fuel + 1) k st now =
      ⟨(hr_loop f fuel (k + 1) st2 (now + should_wait st now)).outcome,
       (hr_loop f fuel (k + 1) st2 (now + should_wait st now)).state,
       (hr_loop f fuel (k + 1) st2 (now + should_wait st now)).now,
       ⟨st.backoff_until, st.retry_after_until, now + should_wait st now⟩ ::
         (hr_loop f fuel (k + 1) st2 (now + should_wait st now)).calls⟩ := by
  cases hf : f k with
  | ok v hdrs => rw [hf] at h; simp [retryable] at h
  | exn e =>
      rw [hf] at h
      simp only [retryable] at h
      cases hr : e.response with
      | none => exact absurd h (by simp [retryable_exn, hr])
      | some r =>
          simp only [retryable_exn, hr] at h
          by_cases h429 : (r.status == 429) = true
          · refine ⟨handle_response_headers r.headers (now + should_wait st now) st, ?_⟩
            simp only [hr_loop, hf, hr, h429, if_true]
          · have hbk : r.headers.backoff.isSome = true := by
              cases hx : r.headers.backoff.isSome with
              | true => rfl
              | false =>
                  rw [hx] at h
                  cases hy : (r.status == 429) with
                  | false => rw [hy] at h; simp at h
                  | true => exact absurd hy h429
            refine ⟨handle_response_headers r.headers (now + should_wait st now) st, ?_⟩
            have h429f : (r.status == 429) = false := by
              cases hx : (r.status == 429) with
              | false => rfl
              | true => exact absurd hx h429
            simp only [hr_loop, hf, hr, h429f, hbk, Bool.false_eq_true, if_false, if_true]

theorem hr_loop_calls_pos {α : Type} (f : Nat → ZCallResult α) (fuel k : Nat)
    (st : RLState) (now : Int) (h : 1 ≤ fuel) :
    1 ≤ (hr_loop f fuel k st now).calls.length := by
  cases fuel with
  | zero => omega
  | succ fuel =>
      cases hf : f k with
      | ok v hdrs =>
          obtain ⟨st2, heq⟩ := hr_loop_ok_step f fuel k st now v hdrs hf
          rw [heq]
          simp
      | exn e =>
          by_cases hre : retryable_exn e = true
          · obtain ⟨st2, heq⟩ := hr_loop_retry_step f fuel k st now (by rw [hf]; simpa [retryable] using hre)
            rw [heq]
            simp
          · rw [hr_loop_raise_step f fuel k st now e hf (by simpa using hre)]
            simp

theorem hr_loop_calls_le {α : Type} (f : Nat → ZCallResult α) (fuel k : Nat)
    (st : RLState) (now : Int) :
    (hr_loop f fuel k st now).calls.length ≤ fuel := by
  induction fuel generalizing k st now with
  | zero => simp [hr_loop]
  | succ fuel ih =>
      cases hf : f k with
      | ok v hdrs =>
          obtain ⟨st2, heq⟩ := hr_loop_ok_step f fuel k st now v hdrs hf
          rw [heq]
          simp
      | exn e =>
          by_cases hre : retryable_exn e = true
          · obtain ⟨st2, heq⟩ := hr_loop_retry_step f fuel k st now (by rw [hf]; simpa [retryable] using hre)
            rw [heq]
            have := ih (k + 1) st2 (now + should_wait st now)
            simp only [List.length_cons]
            omega
          · rw [hr_loop_raise_step f fuel k st now e hf (by simpa using hre)]
            simp

theorem hr_loop_exhaust {α : Type} (f : Nat → ZCallResult α) (fuel k : Nat)
    (st : RLState) (now : Int)
    (h : ∀ j, j < fuel → retryable (f (k + j)) = true) :
    (hr_loop f fuel k st now).outcome = .terminal "Echec apres 3 tentatives" ∧
    (hr_loop f fuel k st now).calls.length = fuel := by
  induction fuel generalizing k st now with
  | zero => exact ⟨rfl, rfl⟩
  | succ fuel ih =>
      have h0 : retryable (f k) = true := by simpa using h 0 (by omega)
      obtain ⟨st2, heq⟩ := hr_loop_retry_step f fuel k st now h0
      rw [heq]
      have hrest := ih (k + 1) st2 (now + should_wait st now) (fun j hj => by
        have hx := h (j + 1) (by omega)
        rwa [show k + (j + 1) = k + 1 + j by omega] at hx)
      exact ⟨hrest.1, by simp [hrest.2]⟩

theorem hr_loop_raise {α : Type} (f : Nat → ZCallResult α) (fuel k : Nat)
    (st : RLState) (now : Int) (m : Nat) (e : ZExn)
    (hm : m < fuel) (hpre : ∀ j, j < m → retryable (f (k + j)) = true)
    (he : f (k + m) = .exn e) (hne : retryable_exn e = false) :
    (hr_loop f fuel k st now).outcome = .raised e ∧
    (hr_loop f fuel k st now).calls.length = m + 1 := by
  induction m generalizing fuel k st now with
  | zero =>
      cases fuel with
      | zero => omega
      | succ fuel =>
          have he0 : f k = .exn e := by simpa using he
          rw [hr_loop_raise_step f fuel k st now e he0 hne]
          exact ⟨rfl, rfl⟩
  | succ m ih =>
      cases fuel with
      | zero => omega
      | succ fuel =>
          have h0 : retryable (f k) = true := by simpa using hpre 0 (by omega)
          obtain ⟨st2, heq⟩ := hr_loop_retry_step f fuel k st now h0
          rw [heq]
          have hrest := ih fuel (k + 1) st2 (now + should_wait st now) (by omega)
            (fun j hj => by
              have hx := hpre (j + 1) (by omega)
              rwa [show k + (j + 1) = k + 1 + j by omega] at hx)
            (by rwa [show k + (m + 1) = k + 1 + m by omega] at he)
          exact ⟨hrest.1, by simp [hrest.2]⟩

theorem hr_loop_retries {α : Type} (f : Nat → ZCallResult α) (fuel k : Nat)
    (st : RLState) (now : Int) (m : Nat)
    (hm : m + 1 < fuel) (hpre : ∀ j, j ≤ m → retryable (f (k + j)) = true) :
    m + 2 ≤ (hr_loop f fuel k st now).calls.length := by
  induction m generalizing fuel k st now with
  | zero =>
      cases fuel with
      | zero => omega
      | succ fuel =>
          have h0 : retryable (f k) = true := by simpa using hpre 0 (by omega)
          obtain ⟨st2, heq⟩ := hr_loop_retry_step f fuel k st now h0
          rw [heq]
          have := hr_loop_calls_pos f fuel (k + 1) st2 (now + should_wait st now) (by omega)
          simp only [List.length_cons]
          omega
  | succ m ih =>
      cases fuel with
      | zero => omega
      | succ fuel =>
          have h0 : retryable (f k) = true := by simpa using hpre 0 (by omega)
          obtain ⟨st2, heq⟩ := hr_loop_retry_step f fuel k st now h0
          rw [heq]
          have hrest := ih fuel (k + 1) st2 (now + should_wait st now) (by omega)
            (fun j hj => by
              have hx := hpre (j + 1) (by omega)
              rwa [show k + (j + 1) = k + 1 + j by omega] at hx)
          simp only [List.length_cons]
          omega

theorem hr_loop_wait {α : Type} (f : Nat → ZCallResult α) (fuel k : Nat)
    (st : RLState) (now : Int) (cr : CallRecord)
    (hcr : cr ∈ (hr_loop f fuel k st now).calls) :
    cr.backoff_until ≤ cr.time ∧ cr.retry_after_until ≤ cr.time := by
  induction fuel generalizing k st now with
  | zero => simp [hr_loop] at hcr
  | succ fuel ih =>
      have hb : st.backoff_until ≤ now + should_wait st now := by
        have h1 : st.backoff_until - now ≤ should_wait st now := by
          unfold should_wait
          exact le_max_left _ _
        omega
      have hr2 : st.retry_after_until ≤ now + should_wait st now := by
        have h1 : st.retry_after_until - now ≤ should_wait st now := by
          unfold should_wait
          exact le_trans (le_max_left _ 0) (le_max_right _ _)
        omega
      cases hf : f k with
      | ok v hdrs =>
          obtain ⟨st2, heq⟩ := hr_loop_ok_step f fuel k st now v hdrs hf
          rw [heq] at hcr
          simp at hcr
          subst hcr
          exact ⟨hb, hr2⟩
      | exn e =>
          by_cases hre : retryable_exn e = true
          · obtain ⟨st2, heq⟩ := hr_loop_retry_step f fuel k st now (by rw [hf]; simpa [retryable] using hre)
            rw [heq] at hcr
            rcases List.mem_cons.mp hcr with rfl | hmem
            · exact ⟨hb, hr2⟩
            · exact ih (k + 1) st2 (now + should_wait st now) hmem
          · rw [hr_loop_raise_step f fuel k st now e hf (by simpa using hre)] at hcr
            simp at hcr
            subst hcr
            exact ⟨hb, hr2⟩

/-- C3: for every behaviour of the wrapped call and every initial handler
state, `_handle_request` (a) issues at most 3 attempts in total; (b)
retries the same call after a throttling rejection (HTTP 429) or an error
response carrying a Backoff header; (c) issues every call only once the
wall clock has reached both the stored Backoff and Retry-After deadlines;
(d) propagates any other error immediately, unretried and unmodified,
as the outcome of the attempt that raised it; and (e) raises the terminal
failed-after-3-attempts error when all 3 attempts were retryable. -/
theorem handle_request_c3 (α : Type) (f : Nat → ZCallResult α) (st : RLState) (now : Int) :
    ((handle_request f st now).calls.length ≤ 3) ∧
    (∀ k, k + 1 < 3 → (∀ j, j ≤ k → retryable (f j) = true) →
      k + 2 ≤ (handle_request f st now).calls.length) ∧
    (∀ k e, k < 3 → (∀ j, j < k → retryable (f j) = true) →
      f k = .exn e → retryable_exn e = false →
      (handle_request f st now).outcome = .raised e ∧
      (handle_request f st now).calls.length = k + 1) ∧
    ((∀ j, j < 3 → retryable (f j) = true) →
      (handle_request f st now).outcome = .terminal "Echec apres 3 tentatives" ∧
      (handle_request f st now).calls.length = 3) ∧
    (∀ cr ∈ (handle_request f st now).calls,
      cr.backoff_until ≤ cr.time ∧ cr.retry_after_until ≤ cr.time) := by
  refine ⟨hr_loop_calls_le f 3 0 st now, ?_, ?_, ?_, ?_⟩
  · intro k hk hpre
    exact hr_loop_retries f 3 0 st now k hk (fun j hj => by simpa using hpre j hj)
  · intro k e hk hpre he hne
    exact hr_loop_raise f 3 0 st now k e hk
      (fun j hj => by simpa using hpre j hj) (by simpa using he) hne
  · intro hall
    exact hr_loop_exhaust f 3 0 st now (fun j hj => by simpa using hall j hj)
  · exact fun cr hcr => hr_loop_wait f 3 0 st now cr hcr

/-- Witness for C3: a call that always fails with a 429 carrying
Retry-After 5 is attempted exactly 3 times and ends in the terminal
failed-after-3-attempts error. -/
theorem handle_request_c3_witness :
    (handle_request (fun _ => (ZCallResult.exn ⟨0, some ⟨429, ⟨none, some 5⟩⟩⟩ : ZCallResult Unit))
        ⟨0, 0⟩ 0).outcome = .terminal "Echec apres 3 tentatives" ∧
    (handle_request (fun _ => (ZCallResult.exn ⟨0, some ⟨429, ⟨none, some 5⟩⟩⟩ : ZCallResult Unit))
        ⟨0, 0⟩ 0).calls.length = 3 :=
  (handle_request_c3 Unit (fun _ => .exn ⟨0, some ⟨429, ⟨none, some 5⟩⟩⟩) ⟨0, 0⟩ 0).2.2.2.1
    (fun _ _ => rfl)
